import Mathlib

/-!
Verification of the CAH-to-text-messages conversion script
(scripts/conversion/cah_to_text_messages.py).

Modelling conventions: Python lists are `List`, Python `str` is `List Char`
(one character per code point), Python `int` is `Int` (or `Nat` where the
value is known non-negative), a raised exception is `Except.error`, and the
observable side effects of the per-batch conversion loop (API calls, sleeps,
error logging) are an explicit event trace. The external generation service
is abstracted as a function from the batch index to the reply text of that
batch's API call (or to the exception it raises); the claims under
verification quantify over all replies, so the request payload built from
the card texts does not influence any of them.
-/

/-! ## Definitions -/

/-- Embeds the Python slice `l[i:j]` for `0 <= i <= j`: the elements at
    positions `i, ..., j - 1`, clamped to the length of the list. -/
def pySlice (l : List α) (i j : Nat) : List α :=
  (l.drop i).take (j - i)

/-- Embeds `range(0, n, s)` for a positive step `s`: the indices
    `0, s, 2*s, ...` strictly below `n`; there are exactly
    `ceil(n / s) = (n + s - 1) / s` of them. -/
def pyRangeStep (n s : Nat) : List Nat :=
  (List.range ((n + s - 1) / s)).map (fun k => k * s)

/-- Embeds the comprehension body of `batch_cards`
    (cah_to_text_messages.py, lines 58-69):
    `[cards[i:i + batch_size] for i in range(0, len(cards), batch_size)]`,
    for the case `batch_size > 0`. -/
def batchPos (cards : List α) (batch_size : Nat) : List (List α) :=
  (pyRangeStep cards.length batch_size).map (fun i => pySlice cards i (i + batch_size))

/-- Embeds `batch_cards` over the full `int` range of `batch_size`.
    In Python, `range(0, n, 0)` raises `ValueError`, and `range(0, n, step)`
    with `step < 0` is empty for every `n >= 0`, so the comprehension
    silently yields `[]` for a negative batch size. -/
def batch_cards (cards : List α) (batch_size : Int) : Except String (List (List α)) :=
  if batch_size = 0 then Except.error ("range() arg 3 must not be zero")
  else if batch_size < 0 then Except.ok []
  else Except.ok (batchPos cards batch_size.toNat)

/-- Whitespace characters stripped by `str.strip()` (the ASCII ones:
    space, tab, newline, carriage return, vertical tab, form feed). -/
def isPySpace (c : Char) : Bool :=
  c = ' ' || c = '\t' || c = '\n' || c = '\r' || c = Char.ofNat 11 || c = Char.ofNat 12

/-- Embeds `s.lstrip()`: leading whitespace removed. -/
def lstrip (l : List Char) : List Char := l.dropWhile isPySpace

/-- Embeds `s.rstrip()`: trailing whitespace removed. -/
def rstrip (l : List Char) : List Char := (l.reverse.dropWhile isPySpace).reverse

/-- Embeds `s.strip()`: leading and trailing whitespace removed. -/
def pyStrip (l : List Char) : List Char := lstrip (rstrip l)

/-- Embeds splitting a string on the newline character, as Python
    `s.split` with the newline separator does: the list of segments
    between newlines; empty segments are kept and the result is never
    empty. -/
def splitNl : List Char → List (List Char)
  | [] => [[]]
  | c :: cs =>
    if c = '\n' then [] :: splitNl cs
    else (c :: (splitNl cs).headI) :: (splitNl cs).tail

/-- Embeds the comprehension of lines 124 / 184:
    `[msg.strip() for msg in result if msg.strip()]` - strip every line,
    keep the ones that are non-empty after stripping, in order. -/
def stripFilter (msgs : List (List Char)) : List (List Char) :=
  msgs.filterMap (fun msg => if pyStrip msg = [] then none else some (pyStrip msg))

/-- Embeds the parsing of one successful reply (lines 123-124 / 183-184):
    the reply text is stripped as a whole, split on newlines, and the
    stripped non-empty lines are kept. -/
def codeParse (content : List Char) : List (List Char) :=
  stripFilter (splitNl (pyStrip content))

/-- Modelled from the spec (section 4.3, step 3): split the returned text
    on line boundaries, discard empty and whitespace-only lines, keep the
    survivors in trimmed form, order preserved. Identical to `codeParse`
    except for the initial whole-text strip. -/
def specParse (content : List Char) : List (List Char) :=
  stripFilter (splitNl content)

/-- Appends `x` to the last element of a list of lists; on the empty list
    it produces the one-element list `[x]`. Describes how splitting on
    newlines reacts to one extra trailing character. -/
def appendToLast (x : List Char) : List (List Char) → List (List Char)
  | [] => [x]
  | [l] => [l ++ x]
  | l :: ls => l :: appendToLast x ls

/-- Observable side effects of one run of the per-batch conversion loop:
    the API call for a batch index, an error log line naming a batch
    index, and a sleep of a number of seconds. -/
inductive Event
  | apiCall (idx : Nat)
  | logError (idx : Nat)
  | sleep (seconds : Nat)
  deriving DecidableEq

/-- Embeds one iteration of the per-batch loop (lines 86-133 / 152-193).
    The `try` body makes the API call - the only point that can raise -
    then parses the reply, collects the survivors, and sleeps the short
    1 second inter-call delay unless this is the last batch
    (`if batch_idx < len(batches) - 1`). The `except Exception` arm logs
    the error for that batch index and sleeps the 5 second cooldown; the
    failed batch contributes no messages. `service i` is the reply of the
    external call for batch `i`, `n` the total number of batches. -/
def runBatch (service : Nat → Except String (List Char)) (n i : Nat) :
    List (List Char) × List Event :=
  match service i with
  | Except.ok text =>
      (codeParse text, Event.apiCall i :: (if i < n - 1 then [Event.sleep 1] else []))
  | Except.error _ =>
      ([], [Event.apiCall i, Event.logError i, Event.sleep 5])

/-- Runs the loop body over the given batch indices in order, concatenating
    the collected messages (the Python loop extends `converted_messages`)
    and the event traces. -/
def runBatches (service : Nat → Except String (List Char)) (n : Nat) :
    List Nat → List (List Char) × List Event
  | [] => ([], [])
  | i :: rest =>
      ((runBatch service n i).1 ++ (runBatches service n rest).1,
       (runBatch service n i).2 ++ (runBatches service n rest).2)

/-- Embeds the whole loop `for batch_idx, batch in enumerate(batches)`
    over `n` batches. -/
def convertLoop (service : Nat → Except String (List Char)) (n : Nat) :
    List (List Char) × List Event :=
  runBatches service n (List.range n)

/-- Embeds a black card: a JSON object with a `text` field and an integer
    `pick` field. -/
structure BlackCard where
  text : List Char
  pick : Int
  deriving DecidableEq

/-- Embeds `convert_black_cards` (lines 71-135): batch the black cards
    with `batch_cards` and run the per-batch loop over the batches. -/
def convert_black_cards (service : Nat → Except String (List Char))
    (black_cards : List BlackCard) (batch_size : Nat) :
    List (List Char) × List Event :=
  convertLoop service (batchPos black_cards batch_size).length

/-- Embeds `convert_white_cards` (lines 137-195): identical control flow
    to `convert_black_cards`, over the white-card batches. -/
def convert_white_cards (service : Nat → Except String (List Char))
    (white_cards : List (List Char)) (batch_size : Nat) :
    List (List Char) × List Event :=
  convertLoop service (batchPos white_cards batch_size).length

/-- Batch indices whose API call appears in a trace, in order. -/
def apiCallsOf (evs : List Event) : List Nat :=
  evs.filterMap (fun e => match e with | Event.apiCall i => some i | _ => none)

/-- Batch indices whose error log line appears in a trace, in order. -/
def errorLogsOf (evs : List Event) : List Nat :=
  evs.filterMap (fun e => match e with | Event.logError i => some i | _ => none)

/-- Parsed reply of batch `i` when its call succeeds, `none` when it
    raises. -/
def successParse (service : Nat → Except String (List Char)) (i : Nat) :
    Option (List (List Char)) :=
  match service i with
  | Except.ok text => some (codeParse text)
  | Except.error _ => none

/-- Tests whether the call for batch `i` raises. -/
def isFailure (service : Nat → Except String (List Char)) (i : Nat) : Bool :=
  match service i with
  | Except.ok _ => false
  | Except.error _ => true

/-- Outcome of one `save_to_file` call: whether an exception escaped to
    the caller, the resulting content of the destination file, and the
    log lines emitted. -/
structure SaveOutcome where
  raised : Option String
  fileContent : Option (List Char)
  logs : List String
  deriving DecidableEq

/-- Content written by the loop of `save_to_file` (lines 206-208): each
    message followed by one newline character, in order. -/
def save_to_file_content (messages : List (List Char)) : List Char :=
  (messages.map (fun m => m ++ ['\n'])).flatten

/-- Embeds `save_to_file` (lines 197-211). `openOk` abstracts whether
    opening the destination for writing (and the writes themselves)
    succeeds, and `prev` is the prior content of the destination. On
    success the file is overwritten with the message lines - regardless of
    `prev` - and the success line is logged; on failure the
    `except Exception` arm catches the error and only logs it, so the
    function returns normally in both cases and nothing is ever raised to
    the caller. -/
def save_to_file (openOk : Bool) (prev : Option (List Char))
    (messages : List (List Char)) : SaveOutcome :=
  if openOk then
    { raised := none,
      fileContent := some (save_to_file_content messages),
      logs := ["info: Successfully saved"] }
  else
    { raised := none,
      fileContent := prev,
      logs := ["error: Error saving to file"] }

/-- Helper for `splitLines`: `cur` holds the characters of the current
    line in reverse. -/
def splitLinesAux (cur : List Char) : List Char → List (List Char)
  | [] => if cur = [] then [] else [cur.reverse]
  | c :: cs =>
    if c = '\n' then cur.reverse :: splitLinesAux [] cs
    else splitLinesAux (c :: cur) cs

/-- Modelled from the spec: the repository contains no reader for the
    output files, so reading a file back line by line (spec section 8,
    Output Writer round-trip) is modelled as Python `splitlines` on the
    file content: the maximal newline-free segments, with no final empty
    segment for a trailing newline. -/
def splitLines (content : List Char) : List (List Char) :=
  splitLinesAux [] content

/-- Embeds `estimate_cost` (lines 213-261) in exact rational arithmetic:
    batch counts by ceiling division, token totals as the linear
    combinations of the fixed per-card and per-batch constants, and the
    cost as input and output token totals divided by 1000 and multiplied
    by the fixed per-1K rates. -/
def estimate_cost (num_black_cards num_white_cards black_batch_size white_batch_size : Nat) : ℚ :=
  let input_price_per_1k : ℚ := 0.01
  let output_price_per_1k : ℚ := 0.03
  let avg_input_tokens_per_black_card : Nat := 30
  let avg_output_tokens_per_black_card : Nat := 50
  let avg_input_tokens_per_white_card : Nat := 10
  let avg_output_tokens_per_white_card : Nat := 30
  let system_message_tokens : Nat := 300
  let black_batches := (num_black_cards + black_batch_size - 1) / black_batch_size
  let white_batches := (num_white_cards + white_batch_size - 1) / white_batch_size
  let total_input_tokens :=
    black_batches * system_message_tokens +
    num_black_cards * avg_input_tokens_per_black_card +
    white_batches * system_message_tokens +
    num_white_cards * avg_input_tokens_per_white_card
  let total_output_tokens :=
    num_black_cards * avg_output_tokens_per_black_card +
    num_white_cards * avg_output_tokens_per_white_card
  let input_cost := ((total_input_tokens : ℚ) / 1000) * input_price_per_1k
  let output_cost := ((total_output_tokens : ℚ) / 1000) * output_price_per_1k
  input_cost + output_cost

/-- Embeds `cards[:limit]` for an `int` limit: a negative limit keeps all
    but the last `-limit` elements, a non-negative one keeps the first
    `limit` elements. -/
def pyTakeTo (cards : List α) (limit : Int) : List α :=
  if limit < 0 then cards.take (cards.length - (-limit).toNat)
  else cards.take limit.toNat

/-- Embeds the truncation step of `main` (lines 295-299):
    `if args.black_limit: black_cards = black_cards[:args.black_limit]`.
    The limit option defaults to `None`, and the `if` tests Python
    truthiness, under which both `None` and `0` are false. -/
def applyLimit (limit : Option Int) (cards : List α) : List α :=
  match limit with
  | none => cards
  | some l => if l = 0 then cards else pyTakeTo cards l

/-! ## Batching (claims C1 and C9) -/

theorem batchPos_length (cards : List α) (s : Nat) :
    (batchPos cards s).length = (cards.length + s - 1) / s := by
  simp [batchPos, pyRangeStep]

theorem batchPos_getElem (cards : List α) (s k : Nat)
    (hk : k < (batchPos cards s).length) :
    (batchPos cards s)[k] = (cards.drop (k * s)).take s := by
  rw [batchPos_length] at hk
  simp [batchPos, pyRangeStep, pySlice, Nat.add_sub_cancel_left]

theorem batchPos_getElem? (cards : List α) (s k : Nat)
    (hk : k < (batchPos cards s).length) :
    (batchPos cards s)[k]? = some ((cards.drop (k * s)).take s) := by
  rw [List.getElem?_eq_getElem hk, batchPos_getElem cards s k hk]

/-- Ceiling division times the divisor covers the dividend. -/
theorem ceil_div_mul_ge (n s : Nat) (hs : 0 < s) : n ≤ (n + s - 1) / s * s := by
  have h := Nat.lt_div_mul_add (a := n + s - 1) hs
  generalize (n + s - 1) / s * s = t at h ⊢
  omega

theorem flatten_take_chunks (cards : List α) (s m : Nat) :
    ((List.range m).map (fun k => (cards.drop (k * s)).take s)).flatten =
      cards.take (m * s) := by
  induction m with
  | zero => simp
  | succ m ih =>
    rw [List.range_succ, List.map_append, List.flatten_append, ih]
    simp [Nat.succ_mul, List.take_add]

theorem batchPos_eq_chunks (cards : List α) (s : Nat) :
    batchPos cards s = (List.range ((cards.length + s - 1) / s)).map
      (fun k => (cards.drop (k * s)).take s) := by
  simp [batchPos, pyRangeStep, pySlice, List.map_map, Function.comp,
    Nat.add_sub_cancel_left]

theorem batchPos_flatten (cards : List α) (s : Nat) (hs : 0 < s) :
    (batchPos cards s).flatten = cards := by
  rw [batchPos_eq_chunks, flatten_take_chunks]
  exact List.take_of_length_le (ceil_div_mul_ge cards.length s hs)

theorem batchPos_dropLast_length (cards : List α) (s : Nat) (hs : 0 < s) :
    ∀ b ∈ (batchPos cards s).dropLast, b.length = s := by
  intro b hb
  rw [List.mem_iff_getElem] at hb
  obtain ⟨k, hk, hbk⟩ := hb
  have hlen : k < (batchPos cards s).length - 1 := by
    simpa [List.length_dropLast] using hk
  have hklt : k < (batchPos cards s).length := by omega
  rw [List.getElem_dropLast, batchPos_getElem cards s k hklt] at hbk
  rw [batchPos_length] at hlen
  have hq : (cards.length + s - 1) / s * s ≤ cards.length + s - 1 :=
    Nat.div_mul_le_self _ _
  have hk2 : k + 1 ≤ (cards.length + s - 1) / s - 1 := by omega
  have h3 : (k + 1) * s ≤ ((cards.length + s - 1) / s - 1) * s :=
    Nat.mul_le_mul_right s hk2
  have h4 : ((cards.length + s - 1) / s - 1) * s =
      (cards.length + s - 1) / s * s - 1 * s := Nat.sub_mul _ _ _
  have h5 : k * s + s ≤ cards.length := by
    rw [Nat.succ_mul] at h3
    generalize hA : k * s = A at h3 ⊢
    generalize hB : ((cards.length + s - 1) / s - 1) * s = B at h3 h4
    generalize hC : (cards.length + s - 1) / s * s = C at h4 hq
    omega
  subst hbk
  simp [List.length_take, List.length_drop]
  omega

theorem batch_cards_pos (cards : List α) (s : Nat) (hs : 0 < s) :
    batch_cards cards (s : Int) = Except.ok (batchPos cards s) := by
  have h0 : ¬((s : Int) = 0) := by
    simp only [ne_eq, Int.natCast_eq_zero]
    omega
  have h1 : ¬((s : Int) < 0) := by
    simp [Int.not_lt]
  simp [batch_cards, h0, h1]

/-- C1: for every card list `L` and batch size `s > 0`, `batch_cards`
    succeeds and returns `batchPos L s`; flattening the batches yields
    exactly `L`; every batch except possibly the last has length exactly
    `s`; batch `k` is the contiguous slice of `L` starting at offset
    `k * s` (so batches are non-overlapping slices in source order); and
    batching the empty list yields an empty list of batches. -/
theorem batch_cards_partition (L : List α) (s : Nat) (hs : 0 < s) :
    batch_cards L (s : Int) = Except.ok (batchPos L s) ∧
    (batchPos L s).flatten = L ∧
    (∀ b ∈ (batchPos L s).dropLast, b.length = s) ∧
    (∀ k, k < (batchPos L s).length →
      (batchPos L s)[k]? = some ((L.drop (k * s)).take s)) ∧
    batch_cards ([] : List α) (s : Int) = Except.ok [] :=
  ⟨batch_cards_pos L s hs, batchPos_flatten L s hs, batchPos_dropLast_length L s hs,
   fun k hk => batchPos_getElem? L s k hk, by
    rw [batch_cards_pos ([] : List α) s hs]
    simp [batchPos, pyRangeStep, Nat.div_eq_of_lt (by omega : s - 1 < s)]⟩

/-- Witness for C1 at the concrete list `[1, 2, 3, 4, 5]` with batch size 2. -/
theorem batch_cards_partition_witness :
    (batch_cards [1, 2, 3, 4, 5] (2 : Int) = Except.ok (batchPos [1, 2, 3, 4, 5] 2) ∧
      (batchPos [1, 2, 3, 4, 5] 2).flatten = [1, 2, 3, 4, 5] ∧
      (∀ b ∈ (batchPos [1, 2, 3, 4, 5] 2).dropLast, b.length = 2) ∧
      (∀ k, k < (batchPos [1, 2, 3, 4, 5] 2).length →
        (batchPos [1, 2, 3, 4, 5] 2)[k]? = some (([1, 2, 3, 4, 5].drop (k * 2)).take 2)) ∧
      batch_cards ([] : List Nat) (2 : Int) = Except.ok []) ∧
    batchPos [1, 2, 3, 4, 5] 2 = [[1, 2], [3, 4], [5]] :=
  ⟨batch_cards_partition [1, 2, 3, 4, 5] 2 (by decide), by decide⟩

/-- Counterexample to C9 as stated: at the concrete input `[0]` with batch
    size `-1`, `batch_cards` does not fail with an error; it silently
    returns an empty list of batches (the comprehension range is empty). -/
theorem batch_cards_negative_counterexample :
    batch_cards [0] (-1 : Int) = Except.ok [] := rfl

/-- C9 amended: for batch size `0`, `batch_cards` raises the `ValueError`
    coming from `range`; for a strictly negative batch size it does not
    fail and instead silently returns an empty list of batches, dropping
    every card. -/
theorem batch_cards_nonpositive (L : List α) (s : Int) :
    (s = 0 → batch_cards L s = Except.error ("range() arg 3 must not be zero")) ∧
    (s < 0 → batch_cards L s = Except.ok []) := by
  constructor
  · intro h
    simp [batch_cards, h]
  · intro h
    have h0 : ¬ s = 0 := by omega
    simp [batch_cards, h0, h]

/-- Witness for the amended C9 at the concrete list `[1, 2, 3]` with batch
    sizes `0` and `-2`. -/
theorem batch_cards_nonpositive_witness :
    batch_cards [1, 2, 3] (0 : Int) = Except.error ("range() arg 3 must not be zero") ∧
    batch_cards [1, 2, 3] (-2 : Int) = Except.ok [] :=
  ⟨(batch_cards_nonpositive [1, 2, 3] 0).1 rfl,
   (batch_cards_nonpositive [1, 2, 3] (-2)).2 (by decide)⟩

/-! ## Reply parsing (claim C3) -/

theorem splitNl_ne_nil (cs : List Char) : splitNl cs ≠ [] := by
  cases cs with
  | nil => simp [splitNl]
  | cons c cs =>
    simp only [splitNl]
    split <;> simp

theorem splitNl_cons_nl (cs : List Char) : splitNl ('\n' :: cs) = [] :: splitNl cs := by
  simp [splitNl]

theorem splitNl_cons_char (c : Char) (cs : List Char) (hc : ¬ c = '\n') :
    splitNl (c :: cs) = (c :: (splitNl cs).headI) :: (splitNl cs).tail := by
  simp [splitNl, hc]

theorem cons_headI_tail_eq {α : Type} [Inhabited α] (S : List α) (h : S ≠ []) :
    S.headI :: S.tail = S := by
  cases S with
  | nil => exact absurd rfl h
  | cons a t => rfl

theorem lstrip_cons_ws (c : Char) (l : List Char) (h : isPySpace c = true) :
    lstrip (c :: l) = lstrip l := by
  simp [lstrip, List.dropWhile_cons, h]

theorem lstrip_cons_nonws (c : Char) (l : List Char) (h : isPySpace c = false) :
    lstrip (c :: l) = c :: l := by
  simp [lstrip, List.dropWhile_cons, h]

theorem rstrip_append_ws (c : Char) (l : List Char) (h : isPySpace c = true) :
    rstrip (l ++ [c]) = rstrip l := by
  simp [rstrip, List.dropWhile_cons, h]

theorem rstrip_append_nonws (c : Char) (l : List Char) (h : isPySpace c = false) :
    rstrip (l ++ [c]) = l ++ [c] := by
  simp [rstrip, List.dropWhile_cons, h]

theorem pyStrip_cons_ws (c : Char) (l : List Char) (h : isPySpace c = true) :
    pyStrip (c :: l) = pyStrip l := by
  unfold pyStrip
  by_cases hE : l.reverse.dropWhile isPySpace = []
  · have h1 : rstrip l = [] := by simp [rstrip, hE]
    have h2 : rstrip (c :: l) = [] := by
      simp only [rstrip]
      rw [show (c :: l).reverse = l.reverse ++ [c] from by simp]
      rw [List.dropWhile_append]
      simp [hE, List.dropWhile_cons, h]
    rw [h1, h2]
  · have h2 : rstrip (c :: l) = c :: rstrip l := by
      simp only [rstrip]
      rw [show (c :: l).reverse = l.reverse ++ [c] from by simp]
      rw [List.dropWhile_append]
      simp [hE]
    rw [h2]
    exact lstrip_cons_ws c (rstrip l) h

theorem pyStrip_append_ws (c : Char) (l : List Char) (h : isPySpace c = true) :
    pyStrip (l ++ [c]) = pyStrip l := by
  unfold pyStrip
  rw [rstrip_append_ws c l h]

theorem pyStrip_nil : pyStrip [] = [] := rfl

theorem stripFilter_cons (a : List Char) (L : List (List Char)) :
    stripFilter (a :: L) =
      if pyStrip a = [] then stripFilter L else pyStrip a :: stripFilter L := by
  by_cases h : pyStrip a = [] <;> simp [stripFilter, List.filterMap_cons, h]

theorem stripFilter_append (L1 L2 : List (List Char)) :
    stripFilter (L1 ++ L2) = stripFilter L1 ++ stripFilter L2 := by
  simp [stripFilter, List.filterMap_append]

theorem stripFilter_congr_head (a b : List Char) (L : List (List Char))
    (h : pyStrip a = pyStrip b) :
    stripFilter (a :: L) = stripFilter (b :: L) := by
  rw [stripFilter_cons, stripFilter_cons, h]

theorem stripFilter_splitNl_cons_ws (c : Char) (cs : List Char)
    (h : isPySpace c = true) :
    stripFilter (splitNl (c :: cs)) = stripFilter (splitNl cs) := by
  by_cases hc : c = '\n'
  · subst hc
    rw [splitNl_cons_nl, stripFilter_cons, if_pos pyStrip_nil]
  · rw [splitNl_cons_char c cs hc]
    calc stripFilter ((c :: (splitNl cs).headI) :: (splitNl cs).tail)
        = stripFilter ((splitNl cs).headI :: (splitNl cs).tail) :=
          stripFilter_congr_head _ _ _ (pyStrip_cons_ws c _ h)
      _ = stripFilter (splitNl cs) := by
          rw [cons_headI_tail_eq _ (splitNl_ne_nil cs)]

theorem stripFilter_splitNl_lstrip (cs : List Char) :
    stripFilter (splitNl (lstrip cs)) = stripFilter (splitNl cs) := by
  induction cs with
  | nil => rfl
  | cons c cs ih =>
    cases h : isPySpace c with
    | true => rw [lstrip_cons_ws c cs h, ih, stripFilter_splitNl_cons_ws c cs h]
    | false => rw [lstrip_cons_nonws c cs h]

theorem splitNl_append_nl (cs : List Char) :
    splitNl (cs ++ ['\n']) = splitNl cs ++ [[]] := by
  induction cs with
  | nil => rfl
  | cons c cs ih =>
    by_cases hc : c = '\n'
    · subst hc
      rw [List.cons_append, splitNl_cons_nl, splitNl_cons_nl, ih, List.cons_append]
    · rw [List.cons_append, splitNl_cons_char c _ hc, splitNl_cons_char c cs hc, ih]
      cases hE : splitNl cs with
      | nil => exact absurd hE (splitNl_ne_nil cs)
      | cons s S2 => simp

theorem splitNl_append_char (cs : List Char) (c : Char) (hc : ¬ c = '\n') :
    splitNl (cs ++ [c]) = appendToLast [c] (splitNl cs) := by
  induction cs with
  | nil => simp [splitNl, appendToLast, if_neg hc]
  | cons a cs ih =>
    by_cases ha : a = '\n'
    · subst ha
      rw [List.cons_append, splitNl_cons_nl, splitNl_cons_nl, ih]
      cases hE : splitNl cs with
      | nil => exact absurd hE (splitNl_ne_nil cs)
      | cons s S2 => simp [appendToLast]
    · rw [List.cons_append, splitNl_cons_char a _ ha, splitNl_cons_char a cs ha, ih]
      cases hE : splitNl cs with
      | nil => exact absurd hE (splitNl_ne_nil cs)
      | cons s S2 =>
        cases S2 with
        | nil => simp [appendToLast]
        | cons s2 S3 => simp [appendToLast]

theorem stripFilter_appendToLast_ws (c : Char) (h : isPySpace c = true)
    (S : List (List Char)) :
    stripFilter (appendToLast [c] S) = stripFilter S := by
  induction S with
  | nil =>
    have hp : pyStrip [c] = [] := by
      simp [pyStrip, rstrip, lstrip, List.dropWhile_cons, h]
    simp [appendToLast, stripFilter_cons, hp, stripFilter]
  | cons l ls ih =>
    cases ls with
    | nil =>
      have hp : pyStrip (l ++ [c]) = pyStrip l := pyStrip_append_ws c l h
      simp [appendToLast, stripFilter_cons, hp]
    | cons l2 ls2 =>
      simp only [appendToLast]
      rw [stripFilter_cons, stripFilter_cons, ih]

theorem stripFilter_splitNl_append_ws (cs : List Char) (c : Char)
    (h : isPySpace c = true) :
    stripFilter (splitNl (cs ++ [c])) = stripFilter (splitNl cs) := by
  by_cases hc : c = '\n'
  · subst hc
    rw [splitNl_append_nl, stripFilter_append]
    simp [stripFilter, pyStrip_nil]
  · rw [splitNl_append_char cs c hc, stripFilter_appendToLast_ws c h]

theorem stripFilter_splitNl_rstrip (cs : List Char) :
    stripFilter (splitNl (rstrip cs)) = stripFilter (splitNl cs) := by
  induction cs using List.reverseRecOn with
  | nil => rfl
  | append_singleton cs c ih =>
    cases h : isPySpace c with
    | true => rw [rstrip_append_ws c cs h, ih, stripFilter_splitNl_append_ws cs c h]
    | false => rw [rstrip_append_nonws c cs h]

theorem codeParse_eq_specParse (content : List Char) :
    codeParse content = specParse content := by
  unfold codeParse specParse pyStrip
  rw [stripFilter_splitNl_lstrip, stripFilter_splitNl_rstrip]

theorem dropWhile_head?_false {α : Type} (p : α → Bool) (l : List α) (a : α)
    (h : (l.dropWhile p).head? = some a) : p a = false := by
  induction l with
  | nil => simp at h
  | cons c cs ih =>
    by_cases hp : p c = true
    · rw [List.dropWhile_cons, if_pos hp] at h
      exact ih h
    · rw [List.dropWhile_cons, if_neg hp] at h
      simp only [List.head?_cons, Option.some.injEq] at h
      subst h
      simpa using hp

theorem getLast?_dropWhile_eq {α : Type} (p : α → Bool) (l : List α)
    (h : l.dropWhile p ≠ []) : (l.dropWhile p).getLast? = l.getLast? := by
  induction l with
  | nil => simp at h
  | cons c cs ih =>
    by_cases hp : p c = true
    · rw [List.dropWhile_cons, if_pos hp] at h ⊢
      rw [ih h]
      have hcs : cs ≠ [] := by
        intro h0
        rw [h0] at h
        simp at h
      cases cs with
      | nil => exact absurd rfl hcs
      | cons d ds => rw [List.getLast?_cons_cons]
    · rw [List.dropWhile_cons, if_neg hp]

theorem pyStrip_head?_not_ws (l : List Char) (a : Char)
    (h : (pyStrip l).head? = some a) : isPySpace a = false := by
  unfold pyStrip lstrip at h
  exact dropWhile_head?_false isPySpace (rstrip l) a h

theorem pyStrip_getLast?_not_ws (l : List Char) (a : Char)
    (h : (pyStrip l).getLast? = some a) : isPySpace a = false := by
  have hne : pyStrip l ≠ [] := by
    intro h0
    rw [h0] at h
    simp at h
  unfold pyStrip lstrip at h hne
  rw [getLast?_dropWhile_eq isPySpace (rstrip l) hne] at h
  unfold rstrip at h
  rw [List.getLast?_reverse] at h
  exact dropWhile_head?_false isPySpace l.reverse a h

theorem stripFilter_mem_props (L : List (List Char)) (l : List Char)
    (h : l ∈ stripFilter L) :
    l ≠ [] ∧ (∀ a, l.head? = some a → isPySpace a = false) ∧
      (∀ a, l.getLast? = some a → isPySpace a = false) := by
  unfold stripFilter at h
  rw [List.mem_filterMap] at h
  obtain ⟨msg, _, hmsg⟩ := h
  by_cases hp : pyStrip msg = []
  · rw [if_pos hp] at hmsg
    exact absurd hmsg (by simp)
  · rw [if_neg hp] at hmsg
    have hl : pyStrip msg = l := by
      injection hmsg
    subst hl
    exact ⟨hp, fun a ha => pyStrip_head?_not_ws msg a ha,
      fun a ha => pyStrip_getLast?_not_ws msg a ha⟩

/-- C3: parsing a successful reply. The whole-text strip the code performs
    before splitting does not change the outcome, so the code's parse
    equals the parse the spec describes (split the reply on newlines, trim
    each line, keep the non-empty survivors in order); the messages a
    successful batch appends are exactly this parse of its reply; and
    every resulting string is non-empty with no leading or trailing
    whitespace. -/
theorem reply_parsing_spec :
    (∀ content : List Char, codeParse content = specParse content) ∧
    (∀ (service : Nat → Except String (List Char)) (n i : Nat) (text : List Char),
      service i = Except.ok text → (runBatch service n i).1 = specParse text) ∧
    (∀ (content l : List Char), l ∈ specParse content →
      l ≠ [] ∧ (∀ a, l.head? = some a → isPySpace a = false) ∧
        (∀ a, l.getLast? = some a → isPySpace a = false)) := by
  refine ⟨codeParse_eq_specParse, ?_, ?_⟩
  · intro service n i text hs
    simp [runBatch, hs, codeParse_eq_specParse]
  · intro content l hl
    exact stripFilter_mem_props (splitNl content) l hl

/-- Witness for C3 at a concrete reply: a padded line, a whitespace-only
    line, and a second padded line. -/
theorem reply_parsing_witness :
    specParse ("  hi there".data ++ "\n \nok  ".data) = ["hi there".data, "ok".data] ∧
    codeParse ("  hi there".data ++ "\n \nok  ".data) =
      specParse ("  hi there".data ++ "\n \nok  ".data) ∧
    (runBatch (fun _ => Except.ok ("  hi there".data ++ "\n \nok  ".data)) 3 0).1 =
      specParse ("  hi there".data ++ "\n \nok  ".data) ∧
    ("hi there".data ≠ [] ∧
      (∀ a, ("hi there".data : List Char).head? = some a → isPySpace a = false) ∧
      (∀ a, ("hi there".data : List Char).getLast? = some a → isPySpace a = false)) :=
  ⟨by decide, reply_parsing_spec.1 _, reply_parsing_spec.2.1 _ 3 0 _ rfl,
   reply_parsing_spec.2.2 ("  hi there".data ++ "\n \nok  ".data) ("hi there".data)
     (by decide)⟩

/-! ## Conversion loop (claims C2 and C4) -/

theorem runBatches_messages (service : Nat → Except String (List Char)) (n : Nat)
    (is : List Nat) :
    (runBatches service n is).1 = (is.filterMap (successParse service)).flatten := by
  induction is with
  | nil => rfl
  | cons i rest ih =>
    cases hs : service i with
    | ok text => simp [runBatches, runBatch, successParse, hs, ih]
    | error e => simp [runBatches, runBatch, successParse, hs, ih]

theorem runBatches_trace (service : Nat → Except String (List Char)) (n : Nat)
    (is : List Nat) :
    (runBatches service n is).2 =
      (is.map (fun i => (runBatch service n i).2)).flatten := by
  induction is with
  | nil => rfl
  | cons i rest ih => simp [runBatches, ih]

theorem apiCallsOf_append (e1 e2 : List Event) :
    apiCallsOf (e1 ++ e2) = apiCallsOf e1 ++ apiCallsOf e2 := by
  simp [apiCallsOf, List.filterMap_append]

theorem errorLogsOf_append (e1 e2 : List Event) :
    errorLogsOf (e1 ++ e2) = errorLogsOf e1 ++ errorLogsOf e2 := by
  simp [errorLogsOf, List.filterMap_append]

theorem apiCallsOf_runBatch (service : Nat → Except String (List Char)) (n i : Nat) :
    apiCallsOf (runBatch service n i).2 = [i] := by
  cases hs : service i with
  | ok text =>
    by_cases h : i < n - 1 <;> simp [runBatch, hs, apiCallsOf, h]
  | error e => simp [runBatch, hs, apiCallsOf]

theorem errorLogsOf_runBatch (service : Nat → Except String (List Char)) (n i : Nat) :
    errorLogsOf (runBatch service n i).2 =
      if isFailure service i then [i] else [] := by
  cases hs : service i with
  | ok text =>
    by_cases h : i < n - 1 <;> simp [runBatch, hs, errorLogsOf, isFailure, h]
  | error e => simp [runBatch, hs, errorLogsOf, isFailure]

theorem runBatches_apiCalls (service : Nat → Except String (List Char)) (n : Nat)
    (is : List Nat) :
    apiCallsOf (runBatches service n is).2 = is := by
  induction is with
  | nil => rfl
  | cons i rest ih =>
    simp [runBatches, apiCallsOf_append, apiCallsOf_runBatch, ih]

theorem runBatches_errorLogs (service : Nat → Except String (List Char)) (n : Nat)
    (is : List Nat) :
    errorLogsOf (runBatches service n is).2 =
      is.filter (fun i => isFailure service i) := by
  induction is with
  | nil => rfl
  | cons i rest ih =>
    by_cases hf : isFailure service i = true <;>
      simp [runBatches, errorLogsOf_append, errorLogsOf_runBatch, ih, hf,
        List.filter_cons]

/-- C2: an exception raised by the external call of some batch is
    recovered inside the loops of `convert_black_cards` and
    `convert_white_cards` and never propagates: the returned collection is
    exactly the concatenation, in batch order, of the parsed replies of
    the successful batches (a failed batch contributes nothing); every
    batch index is attempted exactly once, in order (no retry, and
    processing continues past a failure to the very last batch); and the
    batch indices whose error is logged are exactly the failed ones. -/
theorem convert_failures_recovered (service : Nat → Except String (List Char))
    (black_cards : List BlackCard) (white_cards : List (List Char)) (bs ws : Nat) :
    ((convert_black_cards service black_cards bs).1 =
      ((List.range (batchPos black_cards bs).length).filterMap
        (successParse service)).flatten ∧
      apiCallsOf (convert_black_cards service black_cards bs).2 =
        List.range (batchPos black_cards bs).length ∧
      errorLogsOf (convert_black_cards service black_cards bs).2 =
        (List.range (batchPos black_cards bs).length).filter
          (fun i => isFailure service i)) ∧
    ((convert_white_cards service white_cards ws).1 =
      ((List.range (batchPos white_cards ws).length).filterMap
        (successParse service)).flatten ∧
      apiCallsOf (convert_white_cards service white_cards ws).2 =
        List.range (batchPos white_cards ws).length ∧
      errorLogsOf (convert_white_cards service white_cards ws).2 =
        (List.range (batchPos white_cards ws).length).filter
          (fun i => isFailure service i)) :=
  ⟨⟨runBatches_messages _ _ _, runBatches_apiCalls _ _ _, runBatches_errorLogs _ _ _⟩,
   ⟨runBatches_messages _ _ _, runBatches_apiCalls _ _ _, runBatches_errorLogs _ _ _⟩⟩

/-- C4: the sleep schedule of one run. The event trace is the
    concatenation of the per-batch traces in order; a successful batch
    that is not the last is followed by exactly the short 1 second
    inter-call delay; a successful last batch is followed by no sleep at
    all; a failed batch is followed by the 5 second cooldown instead of
    the short delay (even when it is the last batch). -/
theorem pipeline_sleep_schedule (service : Nat → Except String (List Char)) (n : Nat) :
    (convertLoop service n).2 =
      ((List.range n).map (fun i => (runBatch service n i).2)).flatten ∧
    (∀ i text, i + 1 < n → service i = Except.ok text →
      (runBatch service n i).2 = [Event.apiCall i, Event.sleep 1]) ∧
    (∀ i text, i + 1 = n → service i = Except.ok text →
      (runBatch service n i).2 = [Event.apiCall i]) ∧
    (∀ i e, service i = Except.error e →
      (runBatch service n i).2 = [Event.apiCall i, Event.logError i, Event.sleep 5]) := by
  refine ⟨runBatches_trace service n (List.range n), ?_, ?_, ?_⟩
  · intro i text h hs
    have hi : i < n - 1 := by omega
    simp [runBatch, hs, hi]
  · intro i text h hs
    have hi : ¬ i < n - 1 := by omega
    simp [runBatch, hs, hi]
  · intro i e hs
    simp [runBatch, hs]

/-- Witness for C4: two batches, where the first call succeeds and the
    second raises. -/
theorem pipeline_sleep_schedule_witness :
    (runBatch (fun i => if i = 0 then Except.ok ("a".data) else Except.error ("boom"))
        2 0).2 = [Event.apiCall 0, Event.sleep 1] ∧
    (runBatch (fun i => if i = 0 then Except.ok ("a".data) else Except.error ("boom"))
        2 1).2 = [Event.apiCall 1, Event.logError 1, Event.sleep 5] :=
  ⟨(pipeline_sleep_schedule
      (fun i => if i = 0 then Except.ok ("a".data) else Except.error ("boom")) 2).2.1
      0 ("a".data) (by omega) rfl,
   (pipeline_sleep_schedule
      (fun i => if i = 0 then Except.ok ("a".data) else Except.error ("boom")) 2).2.2.2
      1 ("boom") rfl⟩

/-! ## Cost estimator (claims C5 and C6) -/

theorem estimate_cost_le_of_le (b1 b2 w1 w2 bbs wbs : Nat)
    (hb : b1 ≤ b2) (hw : w1 ≤ w2) :
    estimate_cost b1 w1 bbs wbs ≤ estimate_cost b2 w2 bbs wbs := by
  have h1 : (b1 + bbs - 1) / bbs ≤ (b2 + bbs - 1) / bbs :=
    Nat.div_le_div_right (by omega)
  have h2 : (w1 + wbs - 1) / wbs ≤ (w2 + wbs - 1) / wbs :=
    Nat.div_le_div_right (by omega)
  have hin : (b1 + bbs - 1) / bbs * 300 + b1 * 30 + (w1 + wbs - 1) / wbs * 300 +
      w1 * 10 ≤
      (b2 + bbs - 1) / bbs * 300 + b2 * 30 + (w2 + wbs - 1) / wbs * 300 + w2 * 10 := by
    generalize (b1 + bbs - 1) / bbs = x1 at h1 ⊢
    generalize (b2 + bbs - 1) / bbs = x2 at h1 ⊢
    generalize (w1 + wbs - 1) / wbs = y1 at h2 ⊢
    generalize (w2 + wbs - 1) / wbs = y2 at h2 ⊢
    omega
  have hout : b1 * 50 + w1 * 30 ≤ b2 * 50 + w2 * 30 := by omega
  have hinq : (((b1 + bbs - 1) / bbs * 300 + b1 * 30 + (w1 + wbs - 1) / wbs * 300 +
      w1 * 10 : Nat) : ℚ) ≤
      (((b2 + bbs - 1) / bbs * 300 + b2 * 30 + (w2 + wbs - 1) / wbs * 300 +
      w2 * 10 : Nat) : ℚ) := by exact_mod_cast hin
  have houtq : ((b1 * 50 + w1 * 30 : Nat) : ℚ) ≤ ((b2 * 50 + w2 * 30 : Nat) : ℚ) := by
    exact_mod_cast hout
  simp only [estimate_cost]
  gcongr

/-- C5: holding the batch sizes fixed and positive, the cost estimate is
    monotonically non-decreasing in the number of black cards and in the
    number of white cards, each with the other count held fixed. -/
theorem estimate_cost_monotone (bbs wbs : Nat) (_hb : 0 < bbs) (_hw : 0 < wbs) :
    (∀ b1 b2 w, b1 ≤ b2 →
      estimate_cost b1 w bbs wbs ≤ estimate_cost b2 w bbs wbs) ∧
    (∀ b w1 w2, w1 ≤ w2 →
      estimate_cost b w1 bbs wbs ≤ estimate_cost b w2 bbs wbs) :=
  ⟨fun b1 b2 w h => estimate_cost_le_of_le b1 b2 w w bbs wbs h le_rfl,
   fun b w1 w2 h => estimate_cost_le_of_le b b w1 w2 bbs wbs le_rfl h⟩

/-- Witness for C5 at the default batch sizes 10 and 20. -/
theorem estimate_cost_monotone_witness :
    estimate_cost 1 3 10 20 ≤ estimate_cost 2 3 10 20 ∧
    estimate_cost 1 3 10 20 ≤ estimate_cost 1 4 10 20 :=
  ⟨(estimate_cost_monotone 10 20 (by decide) (by decide)).1 1 2 3 (by decide),
   (estimate_cost_monotone 10 20 (by decide) (by decide)).2 1 3 4 (by decide)⟩

/-- C6: with zero cards of both kinds and positive batch sizes, both
    ceiling divisions yield zero batches, so no per-batch system-overhead
    tokens are charged and the estimate is exactly 0. -/
theorem estimate_cost_zero (bbs wbs : Nat) (hb : 0 < bbs) (hw : 0 < wbs) :
    estimate_cost 0 0 bbs wbs = 0 := by
  have h1 : (bbs - 1) / bbs = 0 := Nat.div_eq_of_lt (by omega)
  have h2 : (wbs - 1) / wbs = 0 := Nat.div_eq_of_lt (by omega)
  simp [estimate_cost, h1, h2]

/-- Witness for C6 at the default batch sizes 10 and 20. -/
theorem estimate_cost_zero_witness : estimate_cost 0 0 10 20 = 0 :=
  estimate_cost_zero 10 20 (by decide) (by decide)

/-! ## Output writer (claims C7 and C8) -/

theorem splitLinesAux_line (xs : List Char) :
    ∀ (cur rest : List Char), '\n' ∉ xs →
      splitLinesAux cur (xs ++ '\n' :: rest) =
        (cur.reverse ++ xs) :: splitLinesAux [] rest := by
  induction xs with
  | nil =>
    intro cur rest _
    simp [splitLinesAux]
  | cons c cs ih =>
    intro cur rest hx
    have hc : ¬ c = '\n' := fun h => hx (by simp [h])
    have hcs : '\n' ∉ cs := fun h => hx (List.mem_cons_of_mem c h)
    simp only [List.cons_append, splitLinesAux, if_neg hc, List.append_eq]
    rw [ih (c :: cur) rest hcs]
    simp

theorem splitLines_roundtrip (messages : List (List Char))
    (h : ∀ m ∈ messages, '\n' ∉ m) :
    splitLines (save_to_file_content messages) = messages := by
  induction messages with
  | nil => rfl
  | cons m ms ih =>
    unfold splitLines save_to_file_content
    simp only [List.map_cons, List.flatten_cons]
    have hassoc : (m ++ ['\n']) ++ ((ms.map (fun x => x ++ ['\n'])).flatten) =
        m ++ '\n' :: ((ms.map (fun x => x ++ ['\n'])).flatten) := by simp
    rw [hassoc, splitLinesAux_line m [] _ (h m (by simp))]
    simp only [List.reverse_nil, List.nil_append]
    congr 1
    exact ih (fun x hx => h x (by simp [hx]))

/-- C7: the writer and its round trip. On a successful write the final
    file content is exactly each message followed by one newline, in
    sequence order, regardless of the prior content of the file (the open
    in write mode overwrites); and for non-empty, newline-free messages,
    splitting the written content back into lines returns exactly the
    original sequence. -/
theorem save_to_file_roundtrip (prev : Option (List Char))
    (messages : List (List Char))
    (h : ∀ m ∈ messages, m ≠ [] ∧ '\n' ∉ m) :
    (save_to_file true prev messages).fileContent =
      some ((messages.map (fun m => m ++ ['\n'])).flatten) ∧
    splitLines (save_to_file_content messages) = messages :=
  ⟨rfl, splitLines_roundtrip messages (fun m hm => (h m hm).2)⟩

/-- Witness for C7 at the sequence of messages a, b, c of the spec's
    round-trip property. -/
theorem save_to_file_roundtrip_witness :
    ((save_to_file true (some ("old".data)) ["a".data, "b".data, "c".data]).fileContent =
      some ((["a".data, "b".data, "c".data].map (fun m => m ++ ['\n'])).flatten) ∧
      splitLines (save_to_file_content ["a".data, "b".data, "c".data]) =
        ["a".data, "b".data, "c".data]) ∧
    save_to_file_content ["a".data, "b".data, "c".data] = "a\nb\nc\n".data :=
  ⟨save_to_file_roundtrip (some ("old".data)) ["a".data, "b".data, "c".data]
    (by decide), by decide⟩

/-- Counterexample to C8 as stated: at a concrete failed write,
    `save_to_file` raises nothing to the caller - the exception is caught
    and swallowed, so the failure is not reported to the caller. -/
theorem save_to_file_error_counterexample :
    (save_to_file false none ["a".data]).raised = none := rfl

/-- C8 amended: when the destination cannot be opened or written, the
    `except Exception` arm catches the error: `save_to_file` returns
    normally with nothing raised to the caller, only the error log line is
    emitted - so the success line is not logged and the call does not
    complete as if the write had succeeded - the file keeps its prior
    content, and the write is not retried. The failure is reported in the
    log only, never to the caller. -/
theorem save_to_file_error_swallowed (prev : Option (List Char))
    (messages : List (List Char)) :
    (save_to_file false prev messages).raised = none ∧
    (save_to_file false prev messages).logs = ["error: Error saving to file"] ∧
    (save_to_file false prev messages).fileContent = prev :=
  ⟨rfl, rfl, rfl⟩

/-! ## Entry-point truncation (claim C10) -/

/-- C10: a limit of 0 is treated the same as no limit. The entry point
    tests the limit option for Python truthiness, under which both `None`
    and `0` are false, so an explicit limit of 0 leaves the card list
    unchanged and every card is processed - although slicing with 0 would
    have selected zero cards. -/
theorem limit_zero_keeps_all (cards : List α) :
    applyLimit (some 0) cards = cards ∧
    applyLimit (some 0) cards = applyLimit none cards ∧
    pyTakeTo cards 0 = [] := by
  refine ⟨rfl, rfl, ?_⟩
  simp [pyTakeTo]
